import Mathlib

/-!
Verification of the snowleopard wake-word voice capture pipeline.

This file shallowly embeds the client-side audio/wake-word state machine of
the repository (the transcript handler, silence-timer finalization, audio
buffering/dispatch of frontend/app/voice/page.tsx and its duplicates, and the
server-side transcript queue of the transcribe route) and proves properties
of the embedded definitions.

Embedding conventions: JavaScript strings are lists of characters
(List Char); toLowerCase is modelled on the ASCII range; the regex
character class backslash-s is modelled by the ECMAScript white-space set;
Float samples are modelled as exact rationals; Int16 samples as integers.
-/

namespace Snowleopard

/-- ECMAScript white-space and line-terminator characters: the set matched by
the regex class backslash-s and removed by String.prototype.trim. -/
def isJsWs (c : Char) : Bool :=
  c.toNat == 9 || c.toNat == 10 || c.toNat == 11 || c.toNat == 12 ||
  c.toNat == 13 || c.toNat == 32 || c.toNat == 160 || c.toNat == 0x1680 ||
  (0x2000 ≤ c.toNat && c.toNat ≤ 0x200A) || c.toNat == 0x2028 ||
  c.toNat == 0x2029 || c.toNat == 0x202F || c.toNat == 0x205F ||
  c.toNat == 0x3000 || c.toNat == 0xFEFF

/-- ASCII lower-casing of one character, modelling toLowerCase. -/
def toLowerChar (c : Char) : Char :=
  if 65 ≤ c.toNat ∧ c.toNat ≤ 90 then Char.ofNat (c.toNat + 32) else c

/-- Lower-casing of a string, modelling String.prototype.toLowerCase. -/
def toLowerL (l : List Char) : List Char := l.map toLowerChar

/-- Boolean prefix test on character lists. -/
def isPrefixList : List Char → List Char → Bool
  | [], _ => true
  | _ :: _, [] => false
  | p :: ps, c :: cs => p == c && isPrefixList ps cs

/-- Substring test, modelling String.prototype.includes. -/
def containsSub (needle : List Char) : List Char → Bool
  | [] => isPrefixList needle []
  | c :: cs => isPrefixList needle (c :: cs) || containsSub needle cs

/-- Trailing slice of length n, modelling String.prototype.slice with a
negative argument. -/
def takeLast (n : Nat) (l : List Char) : List Char := l.drop (l.length - n)

/-- The buffer truncation step of the transcript handler: keep only the
trailing 50 characters once the buffer exceeds 50 characters. -/
def truncate50 (l : List Char) : List Char :=
  if 50 < l.length then takeLast 50 l else l

/-- Removal of trailing white-space. -/
def trimRightJs (l : List Char) : List Char :=
  (l.reverse.dropWhile (fun c => isJsWs c)).reverse

/-- String.prototype.trim: removal of leading and trailing white-space. -/
def trimJs (l : List Char) : List Char :=
  trimRightJs (l.dropWhile (fun c => isJsWs c))

/-- Helper for collapseWs; the flag records whether the previous character
belonged to a white-space run already replaced by one space. -/
def collapseWsAux : List Char → Bool → List Char
  | [], _ => []
  | c :: cs, inRun =>
    if isJsWs c then
      (if inRun then collapseWsAux cs true else ' ' :: collapseWsAux cs true)
    else c :: collapseWsAux cs false

/-- Global replacement of every maximal white-space run by a single space,
modelling the replace of the finalizer with the all-white-space pattern. -/
def collapseWs (l : List Char) : List Char := collapseWsAux l false

/-- Whether a string contains at least one non-white-space character; a
string trims to non-empty exactly when this holds. -/
def hasNonWs (l : List Char) : Bool := l.any (fun c => !isJsWs c)

/-- Case-insensitive literal match at the start of a list; on success returns
the remainder after the match. -/
def matchCi : List Char → List Char → Option (List Char)
  | [], l => some l
  | _ :: _, [] => none
  | p :: ps, c :: cs =>
    if toLowerChar c == toLowerChar p then matchCi ps cs else none

/-- Match of one-or-more white-space characters (greedy) at the start of a
list; on success returns the remainder. -/
def matchWsRun : List Char → Option (List Char)
  | [] => none
  | c :: cs =>
    if isJsWs c then some (cs.dropWhile (fun x => isJsWs x)) else none

/-- Matcher for the finalizer regex: hey, then one or more white-space
characters, then johnny, case-insensitively, at the start of a list. -/
def matchHeyWsJohnny (l : List Char) : Option (List Char) :=
  match matchCi ("hey".toList) l with
  | none => none
  | some r1 =>
    match matchWsRun r1 with
    | none => none
    | some r2 => matchCi ("johnny".toList) r2

/-- Fueled global replace-by-empty: scan left to right, deleting every match
of the given matcher, as a global regex replace with an empty replacement
does.  The fuel starts at the length of the list; every matcher used here
consumes at least one character, so the fuel never runs out. -/
def replGlobalAux (m : List Char → Option (List Char)) : Nat → List Char → List Char
  | _, [] => []
  | 0, l => l
  | fuel + 1, c :: rest =>
    match m (c :: rest) with
    | some r => replGlobalAux m fuel r
    | none => c :: replGlobalAux m fuel rest

/-- Global deletion of every match of a matcher. -/
def replGlobal (m : List Char → Option (List Char)) (l : List Char) : List Char :=
  replGlobalAux m l.length l

/-- The trigger phrase of the voice page. -/
def wakeWordVoice : List Char := "hey johnny".toList

/-- The finalizer strip: global case-insensitive deletion of hey, white-space
run, johnny. -/
def stripWakeRegexGlobal (l : List Char) : List Char := replGlobal matchHeyWsJohnny l

/-- The recording-state strip: global case-insensitive deletion of the
literal trigger phrase. -/
def stripWakeLiteralCi (l : List Char) : List Char := replGlobal (matchCi wakeWordVoice) l

/-- State of the wake-word and utterance segmenter of the voice page: the
two detection flags, the rolling wake buffer, the accumulated utterance and
the armed silence timer (carrying the text captured by the timer closure). -/
structure SegState where
  wakeWordDetected : Bool
  isRecording : Bool
  wakeWordBuffer : List Char
  currentTranscript : List Char
  silenceTimer : Option (List Char)
deriving Repr, DecidableEq

/-- Observable outputs of the segmenter: the wake-detected notification and
the emission of a finalized query. -/
inductive SegOut where
  | wakeDetected : SegOut
  | emitQuery : List Char → SegOut
deriving Repr, DecidableEq

/-- The initial segmenter state: awaiting the wake word. -/
def initSegState : SegState :=
  { wakeWordDetected := false, isRecording := false, wakeWordBuffer := [],
    currentTranscript := [], silenceTimer := none }

/-- The finalizer of the voice page, called by the silence timer with the
trimmed captured text: collapse white-space runs, trim, strip residual
trigger-phrase occurrences, and emit the query when non-empty; in either
non-empty case reset to the awaiting state. -/
def finalizeTranscript (text : List Char) (st : SegState) : SegState × List SegOut :=
  if trimJs (collapseWs text) = [] then (st, [])
  else
    if trimJs (stripWakeRegexGlobal (trimJs (collapseWs text))) = [] then
      ({ st with currentTranscript := [], isRecording := false,
                 wakeWordDetected := false }, [])
    else
      ({ st with currentTranscript := [], isRecording := false,
                 wakeWordDetected := false },
       [SegOut.emitQuery (trimJs (stripWakeRegexGlobal (trimJs (collapseWs text))))])

/-- The transcript-event handler of the voice page: ignore empty text;
append the lower-cased text to the wake buffer behind a space separator and
truncate to the trailing 50 characters; when not yet detected and the
trigger phrase occurs in the buffer, transition to recording; when
recording, strip the trigger phrase from the event text and, when the rest
is non-empty, extend the utterance and re-arm the silence timer with the
extended text. -/
def onTranscriptEvent (st : SegState) (raw : List Char) : SegState × List SegOut :=
  if raw = [] then (st, [])
  else
    if !st.wakeWordDetected &&
        containsSub wakeWordVoice (truncate50 (st.wakeWordBuffer ++ (' ' :: toLowerL raw))) then
      ({ st with wakeWordDetected := true, isRecording := true,
                 currentTranscript := [], wakeWordBuffer := [] },
       [SegOut.wakeDetected])
    else
      let stb := { st with
        wakeWordBuffer := truncate50 (st.wakeWordBuffer ++ (' ' :: toLowerL raw)) }
      if stb.isRecording && stb.wakeWordDetected then
        let tt :=
          if containsSub wakeWordVoice (toLowerL raw) then
            trimJs (stripWakeLiteralCi raw)
          else raw
        if trimJs tt = [] then (stb, [])
        else
          let newText :=
            if stb.currentTranscript = [] then tt
            else stb.currentTranscript ++ (' ' :: tt)
          ({ stb with currentTranscript := newText, silenceTimer := some newText }, [])
      else (stb, [])

/-- The silence-timer callback: when a timer is outstanding, consume it and,
when the captured text is non-empty after trimming, finalize it. -/
def onSilence (st : SegState) : SegState × List SegOut :=
  match st.silenceTimer with
  | none => (st, [])
  | some capturedText =>
    if trimJs capturedText = [] then ({ st with silenceTimer := none }, [])
    else finalizeTranscript (trimJs capturedText) { st with silenceTimer := none }

/-- Events consumed by the segmenter: transcript arrivals and the silence
timer firing. -/
inductive SegEvent where
  | transcriptEv : List Char → SegEvent
  | silenceEv : SegEvent
deriving Repr, DecidableEq

/-- One segmenter step. -/
def segStep (st : SegState) : SegEvent → SegState × List SegOut
  | SegEvent.transcriptEv t => onTranscriptEvent st t
  | SegEvent.silenceEv => onSilence st

/-- A run of the segmenter over a sequence of events, collecting outputs. -/
def runSeg (st : SegState) : List SegEvent → SegState × List SegOut
  | [] => (st, [])
  | e :: es =>
    let p := segStep st e
    let q := runSeg p.1 es
    (q.1, p.2 ++ q.2)

/-- The fixed target sample rate of the pipeline (16 kHz). -/
def targetSampleRate : ℚ := 16000

/-- Quantization of one interpolated sample to Int16, as the conversion loop
writes it: the floor of the sample scaled by 32768, saturated to the Int16
range. -/
def pcm16Sample (s : ℚ) : ℤ := max (-32768) (min 32767 ⌊s * 32768⌋)

/-- PCM16 conversion of a whole resampled frame. -/
def quantizeFrame (resampled : List ℚ) : List ℤ := resampled.map pcm16Sample

/-- Quantization as the specification words it, for comparison: the nearest
integer to the scaled sample (halves rounding up), saturated to the Int16
range. -/
def pcm16SampleSpecRound (s : ℚ) : ℤ := max (-32768) (min 32767 (round (s * 32768)))

/-- The linear-interpolation resampling loop: for each output index the
source position is the index scaled by the rate ratio; the two neighbor
samples at the floored position and its successor (clamped to the last valid
input index) are interpolated by the fractional part. -/
def resampleFrame (srcRate : ℚ) (audioData : List ℚ) : List ℚ :=
  (List.range (⌊(audioData.length : ℚ) / (srcRate / targetSampleRate)⌋).toNat).map
    fun (i : ℕ) =>
      audioData.getD (⌊(i : ℚ) * (srcRate / targetSampleRate)⌋).toNat 0 *
          (1 - ((i : ℚ) * (srcRate / targetSampleRate) -
                (⌊(i : ℚ) * (srcRate / targetSampleRate)⌋ : ℚ))) +
        audioData.getD
            (min ((⌊(i : ℚ) * (srcRate / targetSampleRate)⌋).toNat + 1)
              (audioData.length - 1)) 0 *
          ((i : ℚ) * (srcRate / targetSampleRate) -
           (⌊(i : ℚ) * (srcRate / targetSampleRate)⌋ : ℚ))

/-- Minimum emitted chunk size: 800 samples, 50 ms at 16 kHz. -/
def minSamples : Nat := 800

/-- Maximum emitted chunk size: 16000 samples, 1000 ms at 16 kHz. -/
def maxSamples : Nat := 16000

/-- The client-side dispatcher state: the ready flag of the transcriber
object and the accumulated Int16 sample buffer. -/
structure DispatchState where
  isReady : Bool
  audioBuffer : List ℤ
deriving Repr, DecidableEq

/-- Observable dispatcher outputs: a chunk handed to sendAudio, an invocation
of the registered transcript callback, and an invocation of the registered
error callback. -/
inductive DispatchOut where
  | chunkSent : List ℤ → DispatchOut
  | onTranscriptCb : List Char → DispatchOut
  | onErrorCb : DispatchOut
deriving Repr, DecidableEq

/-- The buffered-audio emitter: when at least minSamples are buffered and
the transcriber is ready, slice off at most maxSamples for sendAudio and
keep the remainder; otherwise leave the buffer alone. -/
def sendBufferedAudio (isReady : Bool) (buf : List ℤ) : List ℤ × List (List ℤ) :=
  if minSamples ≤ buf.length ∧ isReady = true then
    (buf.drop (min buf.length maxSamples), [buf.take (min buf.length maxSamples)])
  else (buf, [])

/-- The audio-frame callback: skip the frame entirely when the transcriber
is not ready or playback is active; otherwise resample when the source rate
differs from the target rate, quantize to PCM16, append to the buffer and
run the buffered-audio emitter once. -/
def onaudioprocess (srcRate : ℚ) (isPlaying : Bool) (st : DispatchState)
    (frame : List ℚ) : DispatchState × List (List ℤ) :=
  if !st.isReady || isPlaying then (st, [])
  else
    let resampled := if srcRate ≠ targetSampleRate then resampleFrame srcRate frame else frame
    let r := sendBufferedAudio st.isReady (st.audioBuffer ++ quantizeFrame resampled)
    ({ st with audioBuffer := r.1 }, r.2)

/-- The playback-flag value the frame callback captures at registration:
the callback closes over the isPlayingAudio useState binding of the render
in which startListening ran, which is the initial value false. -/
def capturedIsPlayingAudio : Bool := false

/-- The frame callback as it actually runs: the registered closure is never
re-registered, so its guard reads the captured initial playback flag, not
the live one; the live flag at frame arrival never reaches the guard.  The
unused parameter records the live flag to make that explicit. -/
def onaudioprocessAsRegistered (srcRate : ℚ) (_liveIsPlaying : Bool)
    (st : DispatchState) (frame : List ℚ) : DispatchState × List (List ℤ) :=
  onaudioprocess srcRate capturedIsPlayingAudio st frame

/-- One transcript entry of the response to an audio send: either a
partial-or-final turn text or an error message. -/
inductive RespTranscript where
  | turnText : Bool → List Char → RespTranscript
  | errorMsg : List Char → RespTranscript
deriving Repr, DecidableEq

/-- The transport-level outcome of one audio send: an ok response carrying
pending transcripts, or an HTTP error response with its status and the
sessionExpired flag of its body. -/
inductive SendResponse where
  | ok : List RespTranscript → SendResponse
  | httpError : Nat → Bool → SendResponse
deriving Repr, DecidableEq

/-- The response branch of sendAudio: on ok, relay each transcript to the
transcript callback and each error entry to the error callback; on an HTTP
error, raise the error callback and clear the ready flag exactly when the
body flags sessionExpired or the status is 410. -/
def handleSendResponse (st : DispatchState) (r : SendResponse) :
    DispatchState × List DispatchOut :=
  match r with
  | SendResponse.ok ts =>
    (st, ts.map fun t =>
      match t with
      | RespTranscript.turnText _ x => DispatchOut.onTranscriptCb x
      | RespTranscript.errorMsg _ => DispatchOut.onErrorCb)
  | SendResponse.httpError status expired =>
    if expired || status == 410 then
      ({ st with isReady := false }, [DispatchOut.onErrorCb])
    else (st, [])

/-- Events driving the dispatcher: an audio frame arriving from the capture
device (with the current playback flag) or a transport response to a
previous send. -/
inductive PipeEvent where
  | audioFrame : Bool → List ℚ → PipeEvent
  | serverResponse : SendResponse → PipeEvent
deriving Repr, DecidableEq

/-- One dispatcher step. -/
def pipeStep (srcRate : ℚ) (st : DispatchState) : PipeEvent → DispatchState × List DispatchOut
  | PipeEvent.audioFrame isPlaying frame =>
    let r := onaudioprocess srcRate isPlaying st frame
    (r.1, r.2.map DispatchOut.chunkSent)
  | PipeEvent.serverResponse r => handleSendResponse st r

/-- A run of the dispatcher over a history of events, collecting outputs. -/
def runPipe (srcRate : ℚ) : DispatchState → List PipeEvent → DispatchState × List DispatchOut
  | st, [] => (st, [])
  | st, e :: es =>
    let p := pipeStep srcRate st e
    let q := runPipe srcRate p.1 es
    (q.1, p.2 ++ q.2)

/-- The session lifecycle controller state: presence of each resource handle
held in a ref (true means non-null) and the React flags, in the order the
refs appear in stopListening. -/
structure ControllerState where
  transcriber : Bool
  stream : Bool
  silenceTimer : Bool
  audioProcessor : Bool
  audioSource : Bool
  audioContext : Bool
  isListening : Bool
  isRecording : Bool
  wakeWordDetected : Bool
  wakeWordDetectedRef : Bool
  currentTranscript : List Char
deriving Repr, DecidableEq

/-- Teardown side effects performed by stopListening, one per guarded
resource handle. -/
inductive TeardownAction where
  | closeTranscriber : TeardownAction
  | stopStreamTracks : TeardownAction
  | clearSilenceTimer : TeardownAction
  | disconnectProcessor : TeardownAction
  | disconnectSource : TeardownAction
  | closeAudioContext : TeardownAction
deriving Repr, DecidableEq

/-- The controller state with every handle null and every flag cleared. -/
def stoppedState : ControllerState :=
  { transcriber := false, stream := false, silenceTimer := false,
    audioProcessor := false, audioSource := false, audioContext := false,
    isListening := false, isRecording := false, wakeWordDetected := false,
    wakeWordDetectedRef := false, currentTranscript := [] }

/-- The stopListening teardown: for each non-null handle perform its
teardown side effect and null the ref, in source order, then clear the
listening, recording and wake-detected flags and the current transcript. -/
def stopListening (s : ControllerState) : ControllerState × List TeardownAction :=
  let p1 :=
    if s.transcriber then ({ s with transcriber := false }, [TeardownAction.closeTranscriber])
    else (s, [])
  let p2 :=
    if p1.1.stream then ({ p1.1 with stream := false }, [TeardownAction.stopStreamTracks])
    else (p1.1, [])
  let p3 :=
    if p2.1.silenceTimer then
      ({ p2.1 with silenceTimer := false }, [TeardownAction.clearSilenceTimer])
    else (p2.1, [])
  let p4 :=
    if p3.1.audioProcessor then
      ({ p3.1 with audioProcessor := false }, [TeardownAction.disconnectProcessor])
    else (p3.1, [])
  let p5 :=
    if p4.1.audioSource then
      ({ p4.1 with audioSource := false }, [TeardownAction.disconnectSource])
    else (p4.1, [])
  let p6 :=
    if p5.1.audioContext then
      ({ p5.1 with audioContext := false }, [TeardownAction.closeAudioContext])
    else (p5.1, [])
  ({ p6.1 with isListening := false, isRecording := false, wakeWordDetected := false,
               wakeWordDetectedRef := false, currentTranscript := [] },
   p1.2 ++ p2.2 ++ p3.2 ++ p4.2 ++ p5.2 ++ p6.2)

/-- The kind tag attached to a queued transcript by the websocket message
handler of the transcribe route. -/
inductive TurnKind where
  | PartialTranscript : TurnKind
  | FinalTranscript : TurnKind
deriving Repr, DecidableEq

/-- One transcript entry of the per-session server queue. -/
structure QueuedTranscript where
  kind : TurnKind
  text : List Char
deriving Repr, DecidableEq

/-- The Turn branch of the websocket message handler: when the transcript
text is non-empty, append one entry to the per-session queue, tagged Final
when the turn is formatted and Partial otherwise. -/
def handleTurnMessage (q : List QueuedTranscript) (transcript : List Char)
    (formatted : Bool) : List QueuedTranscript :=
  if transcript = [] then q
  else
    q ++ [{ kind := if formatted then TurnKind.FinalTranscript else TurnKind.PartialTranscript,
            text := transcript }]

/-- Operations on the per-session queue: a Turn message arriving over the
websocket, the draining audio-send response, and the draining polling GET
response. -/
inductive QueueOp where
  | turnMsg : List Char → Bool → QueueOp
  | drainSend : QueueOp
  | drainGet : QueueOp
deriving Repr, DecidableEq

/-- A run of the server-side queue over a history of operations: Turn
messages append in arrival order, and both drain operations return a copy of
the pending queue and then clear it.  The result is the final queue and the
successive drained batches. -/
def runQueue : List QueuedTranscript → List QueueOp → List QueuedTranscript × List (List QueuedTranscript)
  | q, [] => (q, [])
  | q, QueueOp.turnMsg t f :: ops => runQueue (handleTurnMessage q t f) ops
  | q, QueueOp.drainSend :: ops =>
    let r := runQueue [] ops
    (r.1, q :: r.2)
  | q, QueueOp.drainGet :: ops =>
    let r := runQueue [] ops
    (r.1, q :: r.2)

/-- The transcripts a history of operations queues, in arrival order. -/
def arrivedTranscripts : List QueueOp → List QueuedTranscript
  | [] => []
  | QueueOp.turnMsg t f :: ops => handleTurnMessage [] t f ++ arrivedTranscripts ops
  | QueueOp.drainSend :: ops => arrivedTranscripts ops
  | QueueOp.drainGet :: ops => arrivedTranscripts ops

/-- C10: a transcript event with empty (or absent) text is a no-op at the
segmenter interface in every state: the wake buffer, utterance, flags and
silence timer are unchanged and nothing is emitted. -/
theorem emptyTranscript_noop_spec (st : SegState) :
    segStep st (SegEvent.transcriptEv []) = (st, []) := by
  simp [segStep, onTranscriptEvent]

/-- C5: the mute gate does not work at runtime.  The registered frame
callback reads the closure-captured initial playback flag (false), never
the live one, so an 800-sample frame arriving from a ready dispatcher while
the live playback flag is true is still quantized, buffered and handed to
sendAudio in full (first conjunct).  Had the guard seen the live flag, the
same frame would have been dropped with the state unchanged and nothing
sent, which is what the claim describes (second conjunct). -/
theorem playbackMute_code_bug :
    onaudioprocessAsRegistered 16000 true { isReady := true, audioBuffer := [] }
        (List.replicate 800 (0 : ℚ)) =
      ({ isReady := true, audioBuffer := [] }, [List.replicate 800 (0 : ℤ)])
  ∧ onaudioprocess 16000 true { isReady := true, audioBuffer := [] }
        (List.replicate 800 (0 : ℚ)) =
      ({ isReady := true, audioBuffer := [] }, []) := by
  constructor
  · have hq : quantizeFrame (List.replicate 800 (0 : ℚ)) = List.replicate 800 (0 : ℤ) := by
      unfold quantizeFrame
      rw [List.map_replicate]
      rw [show pcm16Sample 0 = 0 from by norm_num [pcm16Sample]]
    have hsend : sendBufferedAudio true (List.replicate 800 (0 : ℤ)) =
        ([], [List.replicate 800 (0 : ℤ)]) := by
      unfold sendBufferedAudio
      rw [if_pos]
      · rw [List.length_replicate]
        rw [show min 800 maxSamples = 800 from rfl]
        rw [List.drop_replicate, List.take_replicate]
        rw [show (800 - 800 : ℕ) = 0 from rfl, show min 800 800 = 800 from rfl,
          List.replicate_zero]
      · exact ⟨by rw [List.length_replicate]; decide, rfl⟩
    have hne : ¬((16000 : ℚ) ≠ targetSampleRate) := by
      simp [targetSampleRate]
    unfold onaudioprocessAsRegistered capturedIsPlayingAudio
    simp only [onaudioprocess, Bool.not_true, Bool.false_or, Bool.false_eq_true,
      if_false, if_neg hne, List.nil_append, hq, hsend]
  · simp [onaudioprocess]

/-- C8: stopListening is total and idempotent: one call from any state
yields the fully stopped state (all handles null, all flags cleared), and a
second call changes nothing and performs no teardown side effect. -/
theorem stopListening_idempotent_spec (s : ControllerState) :
    stopListening ((stopListening s).1) = ((stopListening s).1, [])
  ∧ (stopListening s).1 = stoppedState := by
  obtain ⟨t, st, ti, ap, asr, ac, l, r, w, wr, ct⟩ := s
  have h1 : (stopListening ⟨t, st, ti, ap, asr, ac, l, r, w, wr, ct⟩).1 = stoppedState := by
    cases t <;> cases st <;> cases ti <;> cases ap <;> cases asr <;> cases ac <;> rfl
  refine ⟨?_, h1⟩
  rw [h1]
  rfl

/-- Appending a Turn to a queue splits as the queue followed by the Turn
appended to the empty queue. -/
lemma handleTurnMessage_split (q : List QueuedTranscript) (t : List Char) (f : Bool) :
    handleTurnMessage q t f = q ++ handleTurnMessage [] t f := by
  by_cases h : t = [] <;> simp [handleTurnMessage, h]

/-- C9: the server-side transcript queue delivers every queued event exactly
once and in FIFO arrival order: over any history of Turn arrivals and
draining responses (audio-send or polling GET), the concatenation of all
drained batches followed by the still-pending queue equals the initial queue
followed by the queued events in arrival order.  In particular no event is
returned twice and the relative order of Partial and Final events is
preserved. -/
theorem transcriptQueue_fifo_spec (q : List QueuedTranscript) (ops : List QueueOp) :
    (runQueue q ops).2.flatten ++ (runQueue q ops).1 = q ++ arrivedTranscripts ops := by
  induction ops generalizing q with
  | nil => simp [runQueue, arrivedTranscripts]
  | cons op ops ih =>
    cases op with
    | turnMsg t f =>
      have h := ih (handleTurnMessage q t f)
      simp only [runQueue, arrivedTranscripts]
      rw [h, handleTurnMessage_split q t f, List.append_assoc]
    | drainSend =>
      have h := ih []
      simp only [runQueue, arrivedTranscripts, List.flatten_cons]
      rw [List.append_assoc, h]
      simp
    | drainGet =>
      have h := ih []
      simp only [runQueue, arrivedTranscripts, List.flatten_cons]
      rw [List.append_assoc, h]
      simp

/-- C1 counterexample: the trigger phrase split mid-word across the two
events of the claim is NOT detected, although the concatenation of the two
lower-cased texts contains the phrase and fits the 50-character window: the
handler inserts a space separator between events, so the buffer holds the
two fragments separated by a space. -/
theorem wakeDetection_split_midword_counterexample :
    containsSub wakeWordVoice (toLowerL ("hey jo".toList ++ "hnny".toList)) = true
  ∧ ("hey jo".toList ++ "hnny".toList).length ≤ 50
  ∧ (runSeg initSegState
      [SegEvent.transcriptEv ("hey jo".toList),
       SegEvent.transcriptEv ("hnny".toList)]).1.wakeWordDetected = false
  ∧ (runSeg initSegState
      [SegEvent.transcriptEv ("hey jo".toList),
       SegEvent.transcriptEv ("hnny".toList)]).2 = [] := by
  decide

/-- C1 amended: in the awaiting state, each non-empty event appends a space
followed by its lower-cased text to the wake buffer, the buffer is truncated
to its trailing 50 characters when it exceeds 50, and the machine
transitions to recording (clearing buffer and utterance and notifying)
exactly when the trigger phrase is a substring of the resulting buffer;
otherwise only the buffer changes. -/
theorem wakeDetection_amended_spec (st : SegState) (t : List Char)
    (hdet : st.wakeWordDetected = false) (ht : t ≠ []) :
    (containsSub wakeWordVoice (truncate50 (st.wakeWordBuffer ++ (' ' :: toLowerL t))) = true →
      onTranscriptEvent st t =
        ({ st with wakeWordDetected := true, isRecording := true,
                   currentTranscript := [], wakeWordBuffer := [] },
         [SegOut.wakeDetected]))
  ∧ (containsSub wakeWordVoice (truncate50 (st.wakeWordBuffer ++ (' ' :: toLowerL t))) = false →
      onTranscriptEvent st t =
        ({ st with wakeWordBuffer := truncate50 (st.wakeWordBuffer ++ (' ' :: toLowerL t)) },
         [])) := by
  constructor <;> intro h <;> simp [onTranscriptEvent, ht, hdet, h]

/-- C1 witness: the phrase split at its interior word boundary across two
events is detected, since the separator the handler inserts coincides with
the space of the phrase. -/
theorem wakeDetection_amended_witness :
    onTranscriptEvent { initSegState with wakeWordBuffer := " hey".toList } ("johnny".toList) =
      ({ initSegState with wakeWordDetected := true, isRecording := true },
       [SegOut.wakeDetected]) := by
  exact (wakeDetection_amended_spec { initSegState with wakeWordBuffer := " hey".toList }
    ("johnny".toList) rfl (by decide)).1 (by decide)

/-- C4 counterexample: quantization truncates toward negative infinity
rather than rounding to the nearest integer: on the in-range sample
201/65536 (whose scaled value is 100.5, exactly representable in binary
floating point) the code produces 100 while the round-based map of the
claim produces 101. -/
theorem quantize_round_counterexample :
    (-1 : ℚ) ≤ 201 / 65536 ∧ (201 / 65536 : ℚ) ≤ 1
  ∧ pcm16Sample (201 / 65536) = 100
  ∧ pcm16SampleSpecRound (201 / 65536) = 101 := by
  refine ⟨by norm_num, by norm_num, ?_, ?_⟩
  · norm_num [pcm16Sample]
  · norm_num [pcm16SampleSpecRound, round_eq]

/-- C4 amended: quantization maps each interpolated sample to the floor (not
the rounding) of the sample scaled by 32768, saturated (not wrapped) to the
Int16 range; in the equal-rate case the PCM16 output has the length of the
input frame and each output value is the saturated floor of the
corresponding scaled input sample, and every output lies in the Int16
range. -/
theorem quantize_amended_spec (a : List ℚ) :
    (quantizeFrame a).length = a.length
  ∧ (∀ i, i < a.length →
      (quantizeFrame a).getD i 0 = max (-32768) (min 32767 ⌊a.getD i 0 * 32768⌋))
  ∧ (∀ s : ℚ, -32768 ≤ pcm16Sample s ∧ pcm16Sample s ≤ 32767) := by
  refine ⟨by simp [quantizeFrame], ?_, ?_⟩
  · intro i hi
    simp [quantizeFrame, List.getD_eq_getElem?_getD, List.getElem?_map,
      List.getElem?_eq_getElem hi, pcm16Sample]
  · intro s
    exact ⟨le_max_left _ _, max_le (by norm_num) (min_le_left _ _)⟩

/-- C4 witness: a frame exercising the plain case and both saturation
rails. -/
theorem quantize_amended_witness :
    (quantizeFrame [(1 : ℚ) / 2, 2, -2]).length = 3
  ∧ (quantizeFrame [(1 : ℚ) / 2, 2, -2]).getD 0 0 = 16384
  ∧ (quantizeFrame [(1 : ℚ) / 2, 2, -2]).getD 1 0 = 32767
  ∧ (quantizeFrame [(1 : ℚ) / 2, 2, -2]).getD 2 0 = -32768 := by
  have h := quantize_amended_spec [(1 : ℚ) / 2, 2, -2]
  refine ⟨h.1, ?_, ?_, ?_⟩
  · rw [h.2.1 0 (by norm_num)]; norm_num
  · rw [h.2.1 1 (by norm_num)]; norm_num
  · rw [h.2.1 2 (by norm_num)]; norm_num

/-- C6: for a frame of n samples at a source rate different from the
16 kHz target, the resampler produces exactly the floor of n divided by the
rate ratio many samples, and output sample i is the linear interpolation of
the input samples at the floored source position and its successor (clamped
to the last valid input index), weighted by the fractional part of the
source position; for a 48 kHz source the output length is the input length
divided by three, rounded down. -/
theorem resample_spec (srcRate : ℚ) (a : List ℚ)
    (hne : srcRate ≠ targetSampleRate) (hpos : 0 < srcRate) :
    (resampleFrame srcRate a).length = (⌊(a.length : ℚ) / (srcRate / targetSampleRate)⌋).toNat
  ∧ (∀ i, i < (resampleFrame srcRate a).length →
      (resampleFrame srcRate a).getD i 0 =
        a.getD (⌊(i : ℚ) * (srcRate / targetSampleRate)⌋).toNat 0 *
            (1 - ((i : ℚ) * (srcRate / targetSampleRate) -
                  (⌊(i : ℚ) * (srcRate / targetSampleRate)⌋ : ℚ))) +
          a.getD (min ((⌊(i : ℚ) * (srcRate / targetSampleRate)⌋).toNat + 1) (a.length - 1)) 0 *
            ((i : ℚ) * (srcRate / targetSampleRate) -
             (⌊(i : ℚ) * (srcRate / targetSampleRate)⌋ : ℚ)))
  ∧ (srcRate = 48000 → (resampleFrame srcRate a).length = a.length / 3) := by
  have hlen : (resampleFrame srcRate a).length =
      (⌊(a.length : ℚ) / (srcRate / targetSampleRate)⌋).toNat := by
    unfold resampleFrame
    rw [List.length_map, List.length_range]
  refine ⟨hlen, ?_, ?_⟩
  · intro i hi
    have hm : i < (⌊(a.length : ℚ) / (srcRate / targetSampleRate)⌋).toNat := by
      rwa [hlen] at hi
    unfold resampleFrame
    rw [List.getD_eq_getElem?_getD, List.getElem?_map, List.getElem?_range hm]
    rfl
  · intro h
    subst h
    rw [hlen]
    have hr : (48000 : ℚ) / targetSampleRate = ((3 : ℕ) : ℚ) := by
      norm_num [targetSampleRate]
    rw [hr, Int.floor_toNat, Nat.floor_div_eq_div]

/-- C6 witness: a six-sample frame at 48 kHz yields two samples, each a pure
(fraction-zero) pick of every third input sample. -/
theorem resample_witness :
    (resampleFrame 48000 [(0 : ℚ), 1, 2, 3, 4, 5]).length = 2
  ∧ (resampleFrame 48000 [(0 : ℚ), 1, 2, 3, 4, 5]).getD 0 0 = 0
  ∧ (resampleFrame 48000 [(0 : ℚ), 1, 2, 3, 4, 5]).getD 1 0 = 3 := by
  have h := resample_spec 48000 [(0 : ℚ), 1, 2, 3, 4, 5]
    (by norm_num [targetSampleRate]) (by norm_num)
  have hlen : (resampleFrame 48000 [(0 : ℚ), 1, 2, 3, 4, 5]).length = 2 := by
    rw [h.2.2 rfl]
    rfl
  refine ⟨hlen, ?_, ?_⟩
  · rw [h.2.1 0 (by rw [hlen]; norm_num)]
    norm_num [targetSampleRate, List.getD]
  · rw [h.2.1 1 (by rw [hlen]; norm_num)]
    norm_num [targetSampleRate, List.getD]
    decide

/-- Any chunk the buffered-audio emitter produces has between minSamples and
maxSamples samples. -/
lemma sendBufferedAudio_chunk_bounds (isReady : Bool) (buf c : List ℤ)
    (hc : c ∈ (sendBufferedAudio isReady buf).2) :
    minSamples ≤ c.length ∧ c.length ≤ maxSamples := by
  unfold sendBufferedAudio at hc
  split at hc
  case isTrue h =>
    simp only [List.mem_singleton] at hc
    subst hc
    rw [List.length_take]
    have h1 := h.1
    unfold minSamples at h1
    unfold minSamples maxSamples
    omega
  case isFalse h => simp at hc

/-- Any chunk one dispatcher step emits has between minSamples and
maxSamples samples. -/
lemma pipeStep_chunk_bounds (srcRate : ℚ) (st : DispatchState) (e : PipeEvent) (c : List ℤ)
    (hc : DispatchOut.chunkSent c ∈ (pipeStep srcRate st e).2) :
    minSamples ≤ c.length ∧ c.length ≤ maxSamples := by
  cases e with
  | audioFrame p f =>
    simp only [pipeStep, List.mem_map] at hc
    obtain ⟨x, hx, hcx⟩ := hc
    have hxc : x = c := by injection hcx
    subst hxc
    simp only [onaudioprocess] at hx
    split at hx
    · simp at hx
    · exact sendBufferedAudio_chunk_bounds _ _ _ hx
  | serverResponse r =>
    exfalso
    cases r with
    | ok ts =>
      simp only [pipeStep, handleSendResponse, List.mem_map] at hc
      obtain ⟨t, _, ht⟩ := hc
      cases t <;> simp at ht
    | httpError status expired =>
      simp only [pipeStep, handleSendResponse] at hc
      split at hc <;> simp at hc

/-- C3: over every history of audio frames and transport responses, from any
dispatcher state, every chunk handed to sendAudio contains at least
minSamples (800) and at most maxSamples (16000) PCM16 samples. -/
theorem chunkBounds_spec (srcRate : ℚ) (st : DispatchState) (events : List PipeEvent)
    (c : List ℤ) (hc : DispatchOut.chunkSent c ∈ (runPipe srcRate st events).2) :
    minSamples ≤ c.length ∧ c.length ≤ maxSamples := by
  induction events generalizing st with
  | nil => simp [runPipe] at hc
  | cons e es ih =>
    simp only [runPipe, List.mem_append] at hc
    cases hc with
    | inl h => exact pipeStep_chunk_bounds srcRate st e c h
    | inr h => exact ih _ h

/-- C3 witness: a ready dispatcher that receives one 800-sample frame at the
target rate emits exactly that chunk, and the theorem bounds it. -/
theorem chunkBounds_witness :
    minSamples ≤ (List.replicate 800 (0 : ℤ)).length
  ∧ (List.replicate 800 (0 : ℤ)).length ≤ maxSamples := by
  apply chunkBounds_spec 16000 { isReady := true, audioBuffer := [] }
    [PipeEvent.audioFrame false (List.replicate 800 (0 : ℚ))]
  have hq : quantizeFrame (List.replicate 800 (0 : ℚ)) = List.replicate 800 (0 : ℤ) := by
    unfold quantizeFrame
    rw [List.map_replicate]
    rw [show pcm16Sample 0 = 0 from by norm_num [pcm16Sample]]
  have hsend : sendBufferedAudio true (List.replicate 800 (0 : ℤ)) =
      ([], [List.replicate 800 (0 : ℤ)]) := by
    unfold sendBufferedAudio
    rw [if_pos]
    · rw [List.length_replicate]
      rw [show min 800 maxSamples = 800 from rfl]
      rw [List.drop_replicate, List.take_replicate]
      rw [show (800 - 800 : ℕ) = 0 from rfl, show min 800 800 = 800 from rfl,
        List.replicate_zero]
    · exact ⟨by rw [List.length_replicate]; decide, rfl⟩
  have hne : ¬((16000 : ℚ) ≠ targetSampleRate) := by
    simp [targetSampleRate]
  have hproc : (onaudioprocess 16000 false { isReady := true, audioBuffer := [] }
      (List.replicate 800 (0 : ℚ))).2 = [List.replicate 800 (0 : ℤ)] := by
    simp only [onaudioprocess, Bool.not_true, Bool.false_or, Bool.false_eq_true,
      if_false, if_neg hne, List.nil_append, hq, hsend]
  simp only [runPipe, pipeStep, List.append_nil, hproc, List.map_cons, List.map_nil,
    List.mem_singleton]

/-- One dispatcher step from a non-ready state keeps the state non-ready and
emits no chunk. -/
lemma pipeStep_notReady (srcRate : ℚ) (st : DispatchState) (e : PipeEvent)
    (h : st.isReady = false) :
    (pipeStep srcRate st e).1.isReady = false
  ∧ ∀ c, DispatchOut.chunkSent c ∉ (pipeStep srcRate st e).2 := by
  cases e with
  | audioFrame p f => simp [pipeStep, onaudioprocess, h]
  | serverResponse r =>
    cases r with
    | ok ts =>
      refine ⟨by simp [pipeStep, handleSendResponse, h], ?_⟩
      intro c hc
      simp only [pipeStep, handleSendResponse, List.mem_map] at hc
      obtain ⟨t, _, ht⟩ := hc
      cases t <;> simp at ht
    | httpError status expired =>
      by_cases hx : (expired || status == 410) = true <;>
        simp [pipeStep, handleSendResponse, hx, h]

/-- A dispatcher whose ready flag is cleared emits no chunk over any
subsequent history. -/
lemma runPipe_notReady (srcRate : ℚ) (st : DispatchState) (events : List PipeEvent)
    (h : st.isReady = false) :
    ∀ c, DispatchOut.chunkSent c ∉ (runPipe srcRate st events).2 := by
  induction events generalizing st with
  | nil => simp [runPipe]
  | cons e es ih =>
    intro c hc
    simp only [runPipe, List.mem_append] at hc
    cases hc with
    | inl hc => exact (pipeStep_notReady srcRate st e h).2 c hc
    | inr hc => exact ih _ (pipeStep_notReady srcRate st e h).1 c hc

/-- C7: on a transport error response, the dispatcher raises its registered
error callback and clears its ready flag exactly when the body flags
sessionExpired or the status is 410; and once the ready flag is cleared, no
chunk is handed to sendAudio over any subsequent history until a new session
(a fresh transcriber) is created. -/
theorem sessionExpiry_spec (srcRate : ℚ) (st : DispatchState) :
    (∀ status expired, expired = true ∨ status = 410 →
      handleSendResponse st (SendResponse.httpError status expired) =
        ({ st with isReady := false }, [DispatchOut.onErrorCb]))
  ∧ (∀ status expired, expired = false → status ≠ 410 →
      handleSendResponse st (SendResponse.httpError status expired) = (st, []))
  ∧ (st.isReady = false → ∀ events c,
      DispatchOut.chunkSent c ∉ (runPipe srcRate st events).2) := by
  refine ⟨?_, ?_, ?_⟩
  · intro status expired h
    rcases h with h | h
    · subst h
      simp [handleSendResponse]
    · subst h
      simp [handleSendResponse]
  · intro status expired h1 h2
    have hb : (status == 410) = false := by simpa using h2
    subst h1
    simp [handleSendResponse, hb]
  · intro h events c
    exact runPipe_notReady srcRate st events h c

/-- C7 witness: a 410 response clears the ready flag and raises the error
callback, and a frame arriving afterwards produces no chunk. -/
theorem sessionExpiry_witness :
    handleSendResponse { isReady := true, audioBuffer := [] } (SendResponse.httpError 410 false) =
      ({ isReady := false, audioBuffer := [] }, [DispatchOut.onErrorCb])
  ∧ DispatchOut.chunkSent [(0 : ℤ)] ∉
      (runPipe 16000 { isReady := false, audioBuffer := [] }
        [PipeEvent.audioFrame false [(0 : ℚ)]]).2 := by
  refine ⟨?_, ?_⟩
  · exact (sessionExpiry_spec 16000 { isReady := true, audioBuffer := [] }).1 410 false (Or.inr rfl)
  · exact (sessionExpiry_spec 16000 { isReady := false, audioBuffer := [] }).2.2 rfl
      [PipeEvent.audioFrame false [(0 : ℚ)]] [(0 : ℤ)]

/-- hasNonWs distributes over cons. -/
lemma hasNonWs_cons (c : Char) (cs : List Char) :
    hasNonWs (c :: cs) = (!isJsWs c || hasNonWs cs) := by
  simp [hasNonWs]

/-- Reversal preserves hasNonWs. -/
lemma hasNonWs_reverse (l : List Char) : hasNonWs l.reverse = hasNonWs l := by
  simp [hasNonWs]

/-- Dropping a leading white-space run preserves hasNonWs. -/
lemma hasNonWs_dropWhileWs (l : List Char) :
    hasNonWs (l.dropWhile (fun c => isJsWs c)) = hasNonWs l := by
  induction l with
  | nil => rfl
  | cons c cs ih =>
    by_cases h : isJsWs c = true
    · simp [List.dropWhile, h, hasNonWs_cons, ih]
    · simp [List.dropWhile, h, hasNonWs_cons]

/-- Right-trimming yields the empty string exactly when the string has no
non-white-space character. -/
lemma trimRightJs_eq_nil_iff (l : List Char) :
    trimRightJs l = [] ↔ hasNonWs l = false := by
  unfold trimRightJs hasNonWs
  simp [List.dropWhile_eq_nil_iff]

/-- Right-trimming preserves hasNonWs. -/
lemma hasNonWs_trimRightJs (l : List Char) :
    hasNonWs (trimRightJs l) = hasNonWs l := by
  unfold trimRightJs
  rw [hasNonWs_reverse, hasNonWs_dropWhileWs, hasNonWs_reverse]

/-- Trimming yields the empty string exactly when the string has no
non-white-space character. -/
lemma trimJs_eq_nil_iff (l : List Char) : trimJs l = [] ↔ hasNonWs l = false := by
  unfold trimJs
  rw [trimRightJs_eq_nil_iff, hasNonWs_dropWhileWs]

/-- Trimming preserves hasNonWs. -/
lemma hasNonWs_trimJs (l : List Char) : hasNonWs (trimJs l) = hasNonWs l := by
  unfold trimJs
  rw [hasNonWs_trimRightJs, hasNonWs_dropWhileWs]

/-- Collapsing white-space runs preserves hasNonWs. -/
lemma hasNonWs_collapseWsAux (l : List Char) (b : Bool) :
    hasNonWs (collapseWsAux l b) = hasNonWs l := by
  induction l generalizing b with
  | nil => rfl
  | cons c cs ih =>
    by_cases h : isJsWs c = true
    · cases b <;>
        simp [collapseWsAux, h, hasNonWs_cons, ih, show isJsWs ' ' = true from by decide]
    · simp [collapseWsAux, h, hasNonWs_cons, ih]

/-- A text that trims to non-empty still trims to non-empty after its
white-space runs are collapsed. -/
lemma trimJs_collapseWs_ne_nil (u : List Char) (h : trimJs u ≠ []) :
    trimJs (collapseWs (trimJs u)) ≠ [] := by
  intro hx
  apply h
  rw [trimJs_eq_nil_iff] at hx ⊢
  unfold collapseWs at hx
  rw [hasNonWs_collapseWsAux, hasNonWs_trimJs] at hx
  exact hx

/-- C2: when the silence timer fires with captured text that trims to
non-empty, the segmenter collapses white-space runs to single spaces and
trims, strips every residual case-insensitive occurrence of the trigger
phrase, emits the result as a completed query exactly when it is non-empty
(and exactly once), and in either case returns to the awaiting state with a
cleared utterance and no outstanding timer. -/
theorem silenceFinalize_spec (st : SegState) (u : List Char)
    (ht : st.silenceTimer = some u) (hu : trimJs u ≠ []) :
    onSilence st =
      ({ st with wakeWordDetected := false, isRecording := false,
                 currentTranscript := [], silenceTimer := none },
       if trimJs (stripWakeRegexGlobal (trimJs (collapseWs (trimJs u)))) = [] then []
       else [SegOut.emitQuery (trimJs (stripWakeRegexGlobal (trimJs (collapseWs (trimJs u)))))]) := by
  obtain ⟨wd, ir, wb, ct, sil⟩ := st
  replace ht : sil = some u := ht
  subst ht
  unfold onSilence
  simp only [if_neg hu]
  unfold finalizeTranscript
  rw [if_neg (trimJs_collapseWs_ne_nil u hu)]
  by_cases hcl : trimJs (stripWakeRegexGlobal (trimJs (collapseWs (trimJs u)))) = []
  · rw [if_pos hcl, if_pos hcl]
  · rw [if_neg hcl, if_neg hcl]

/-- C2 witness: from the recording state, the event carrying the text
"turn the lights" followed by the silence timeout emits exactly the one
utterance "turn the lights" and returns the machine to the awaiting
state. -/
theorem silenceFinalize_witness :
    onSilence { wakeWordDetected := true, isRecording := true,
                wakeWordBuffer := " turn the lights".toList,
                currentTranscript := "turn the lights".toList,
                silenceTimer := some ("turn the lights".toList) } =
      ({ wakeWordDetected := false, isRecording := false,
         wakeWordBuffer := " turn the lights".toList,
         currentTranscript := [], silenceTimer := none },
       [SegOut.emitQuery ("turn the lights".toList)])
  ∧ runSeg { wakeWordDetected := true, isRecording := true, wakeWordBuffer := [],
             currentTranscript := [], silenceTimer := none }
      [SegEvent.transcriptEv ("turn the lights".toList), SegEvent.silenceEv] =
      ({ wakeWordDetected := false, isRecording := false,
         wakeWordBuffer := " turn the lights".toList,
         currentTranscript := [], silenceTimer := none },
       [SegOut.emitQuery ("turn the lights".toList)]) := by
  have h := silenceFinalize_spec
    { wakeWordDetected := true, isRecording := true,
      wakeWordBuffer := " turn the lights".toList,
      currentTranscript := "turn the lights".toList,
      silenceTimer := some ("turn the lights".toList) }
    ("turn the lights".toList) rfl (by decide)
  constructor
  · rw [h]
    rw [if_neg (by decide)]
    decide
  · have hstep : onTranscriptEvent
        { wakeWordDetected := true, isRecording := true, wakeWordBuffer := [],
          currentTranscript := [], silenceTimer := none }
        ("turn the lights".toList) =
        ({ wakeWordDetected := true, isRecording := true,
           wakeWordBuffer := " turn the lights".toList,
           currentTranscript := "turn the lights".toList,
           silenceTimer := some ("turn the lights".toList) }, []) := by
      decide
    simp only [runSeg, segStep, hstep, h]
    rw [if_neg (by decide)]
    decide

end Snowleopard
